import Mathlib

/-!
Shallow embedding of the Legendary Scalper v2 position-lifecycle core
(`internal/strategy` and `internal/bot` of the Go repository), with theorems
checking the specification's claims about it.

Modelling conventions:
* Go `float64` values are embedded as exact rationals `ℚ`; the claims under
  check concern comparisons and closed-form arithmetic that are exact at the
  inputs involved.
* Go `time.Time` / `time.Duration` are embedded as rationals measured in
  minutes (the unit used by the config's step wait times).
* The step counter, a Go `int` that only ever holds values `0..len(steps)`,
  is embedded as `Nat`.
-/

namespace LegendaryScalper

/-- Subset of `config.MartingaleConfig` (config.go) carrying the fields the
position-lifecycle core reads: leverage, the three per-step lists, and the
base take-profit percent.  Remaining fields (enabled flags, scanner knobs,
half-close percent, ...) are never read by the functions embedded here. -/
structure MartingaleConfig where
  leverage : Int
  steps : List Int
  stepDistances : List ℚ
  stepWaitTimes : List Int
  takeProfit : ℚ
deriving DecidableEq, Repr

/-- `config.SafetyConfig` (config.go): RSI circuit-breaker limit and the
maximum volatility multiplier. -/
structure SafetyConfig where
  rsiCircuitBreaker : ℚ
  maxVolMultiplier : ℚ
deriving DecidableEq, Repr

/-- `config.StrategyConfig` (config.go), restricted to the martingale and
safety sections used by the strategy package. -/
structure StrategyConfig where
  martingale : MartingaleConfig
  safety : SafetyConfig
deriving DecidableEq, Repr

/-- `strategy.MartingalePosition` (dynamic_tp.go): one active martingale
sequence for one symbol.  `lastAddTime` is a timestamp in minutes. -/
structure MartingalePosition where
  symbol : String
  step : Nat
  entryPrice : ℚ
  quantity : ℚ
  totalMargin : ℚ
  nextStepPrice : ℚ
  stopLoss : ℚ
  takeProfit : ℚ
  lastAddTime : ℚ
deriving DecidableEq, Repr

/-- The `targetPercent` computation inside `CalculateDynamicTarget`
(dynamic_tp.go lines 10-24): base take-profit times a step-bracket
multiplier (1.0 for steps up to 3, 1.2 for steps 4-7, 1.5 for steps 8+).
The Go literals 1.2 and 1.5 are the exact rationals 6/5 and 3/2. -/
def CalculateDynamicTargetPercent (step : Nat) (cfg : StrategyConfig) : ℚ :=
  let baseTP := cfg.martingale.takeProfit
  let multiplier : ℚ := if step ≥ 8 then 3/2 else if step ≥ 4 then 6/5 else 1
  baseTP * multiplier

/-- `strategy.CalculateDynamicTarget` (dynamic_tp.go): take-profit price for
a short position, `avgEntry * (1 - targetPercent/100)`. -/
def CalculateDynamicTarget (avgEntry : ℚ) (step : Nat) (cfg : StrategyConfig) : ℚ :=
  avgEntry * (1 - CalculateDynamicTargetPercent step cfg / 100)

/-- `strategy.CheckSafetyConditions` (safety.go): at step 4 or beyond, an RSI
strictly above the configured circuit-breaker limit vetoes the trade.  The
Go reason strings interpolate the RSI values; the embedding keeps the fixed
text. -/
def CheckSafetyConditions (cfg : StrategyConfig) (rsi : ℚ) (step : Nat) : Bool × String :=
  if step ≥ 4 then
    if rsi > cfg.safety.rsiCircuitBreaker then
      (false, "RSI Circuit Breaker! Waiting for cool-off.")
    else
      (true, "Safety checks passed")
  else
    (true, "Safety checks passed")

/-- Loop body of `strategy.InferStepFromMargin` (dynamic_tp.go lines
123-134): walk the step-size list accumulating the cumulative margin; return
`i + 1` at the first rung where `margin ≤ cumulative / 0.95` (the Go
tolerance 0.95 is the exact rational 19/20), else fall through to `total`
(the caller passes the list length). -/
def inferStepAux (margin : ℚ) : List Int → ℚ → Nat → Nat → Nat
  | [], _, _, total => total
  | stepSize :: rest, cumulative, i, total =>
      let c := cumulative + (stepSize : ℚ)
      if margin ≤ c / (19/20) then i + 1
      else inferStepAux margin rest c (i + 1) total

/-- `strategy.InferStepFromMargin` (dynamic_tp.go): guess the step a position
is at from its observed margin. -/
def InferStepFromMargin (cfg : StrategyConfig) (marginUSDT : ℚ) : Nat :=
  inferStepAux marginUSDT cfg.martingale.steps 0 0 cfg.martingale.steps.length

/-- `strategy.GetStepSize` (dynamic_tp.go): margin amount for a step index,
0 when out of range.  The Go `stepIndex < 0` guard is vacuous for a `Nat`
index. -/
def GetStepSize (cfg : StrategyConfig) (stepIndex : Nat) : ℚ :=
  if stepIndex ≥ cfg.martingale.steps.length then 0
  else ((cfg.martingale.steps.getD stepIndex 0 : Int) : ℚ)

/-- Refusal / acceptance reasons produced by `CalculateNextStep`
(dynamic_tp.go).  The Go function returns formatted strings; the embedding
keeps the same cases with their numeric payloads (remaining cooldown,
required drop percent and volatility multiplier). -/
inductive StepReason where
  | maxStepsReached : StepReason
  | cooldown (remaining : ℚ) : StepReason
  | priceTargetHit (requiredDropPercent multiplier : ℚ) : StepReason
  | priceTargetNotReached : StepReason
deriving DecidableEq, Repr

/-- `strategy.CalculateNextStep` (dynamic_tp.go lines 71-107): decide whether
to add the next martingale rung.  Checks, in order: max steps, cooldown
(`stepWaitTimes` entries are minutes, as is the time axis here), then the
volatility-widened price-distance trigger for a short position.  List reads
`stepWaitTimes[pos.step]` and `stepDistances[pos.step]` are embedded with
`getD _ 0`; the Go code would panic out of range, so theorems about this
function carry in-range hypotheses. -/
def CalculateNextStep (cfg : StrategyConfig) (pos : MartingalePosition)
    (currentPrice volatility now : ℚ) : Bool × StepReason :=
  if pos.step ≥ cfg.martingale.steps.length then
    (false, StepReason.maxStepsReached)
  else
    let waitTime : ℚ := ((cfg.martingale.stepWaitTimes.getD pos.step 0 : Int) : ℚ)
    if now - pos.lastAddTime < waitTime then
      (false, StepReason.cooldown (waitTime - (now - pos.lastAddTime)))
    else
      let baseDistance := cfg.martingale.stepDistances.getD pos.step 0
      let multiplier : ℚ :=
        if volatility > 0 then min (1 + volatility * (1/2)) cfg.safety.maxVolMultiplier else 1
      let requiredDropPercent := baseDistance * multiplier
      let thresholdPrice := pos.entryPrice * (1 + requiredDropPercent / 100)
      if currentPrice ≥ thresholdPrice then
        (true, StepReason.priceTargetHit requiredDropPercent multiplier)
      else
        (false, StepReason.priceTargetNotReached)

/-- Cumulative margin of the first `n` configured rungs: the running
`cumulative` value of `InferStepFromMargin` after `n` loop iterations. -/
def cumulativeStepMargin (sizes : List Int) (n : Nat) : ℚ :=
  (((sizes.take n).sum : Int) : ℚ)

/-! ### Position Ledger (`strategy.StateManager`, state_manager.go)

The Go `ActiveTrades` field is a `map[string]*MartingalePosition`; it is
embedded as an association list keyed by symbol.  Go map assignment /
deletion become replace-first / remove operations; iteration order never
matters for the properties proved below. -/

/-- In-memory view of `StateManager.ActiveTrades`. -/
abbrev Ledger := List (String × MartingalePosition)

/-- Go map read `ActiveTrades[sym]`. -/
def ledgerLookup (l : Ledger) (sym : String) : Option MartingalePosition :=
  match l with
  | [] => none
  | kv :: rest => if kv.1 = sym then some kv.2 else ledgerLookup rest sym

/-- Go map write `ActiveTrades[pos.Symbol] = pos` (the in-memory half of
`StateManager.UpdatePosition`, state_manager.go lines 59-64). -/
def ledgerUpsert (l : Ledger) (pos : MartingalePosition) : Ledger :=
  match l with
  | [] => [(pos.symbol, pos)]
  | kv :: rest =>
      if kv.1 = pos.symbol then (pos.symbol, pos) :: rest
      else kv :: ledgerUpsert rest pos

/-- In-place mutation through the `*MartingalePosition` pointer held under
key `sym` (the update arm of the reconciliation loop mutates `localPos`
field by field and re-stores it under the same key). -/
def ledgerUpdateAt (l : Ledger) (sym : String) (f : MartingalePosition → MartingalePosition) :
    Ledger :=
  match l with
  | [] => []
  | kv :: rest =>
      if kv.1 = sym then (kv.1, f kv.2) :: rest
      else kv :: ledgerUpdateAt rest sym f

/-- The cleanup loop of `BotEngine.Tick` (engine.go lines 158-164): every
ledger entry whose symbol is not in the exchange's active set is removed
(`StateManager.RemovePosition`). -/
def ledgerPrune (l : Ledger) (active : List String) : Ledger :=
  match l with
  | [] => []
  | kv :: rest =>
      if kv.1 ∈ active then kv :: ledgerPrune rest active
      else ledgerPrune rest active

/-! ### Reconciliation (`BotEngine.Tick`, engine.go lines 94-165) -/

/-- One entry of the exchange's open-position list
(`GetAllOpenPositions`, binance.go): the engine parses the
`PositionAmt` / `EntryPrice` / `Leverage` strings with `strconv.ParseFloat`;
the embedding carries the parsed numbers. -/
structure ExchangePosition where
  symbol : String
  positionAmt : ℚ
  entryPrice : ℚ
  leverage : ℚ
deriving DecidableEq, Repr

/-- The position record adopted for an exchange position unknown to the
ledger (engine.go lines 134-155): presumed margin is
`|amt| * entryPrice / leverage` with a leverage floor of 1 when the parsed
leverage is 0, the step is inferred from that margin, and the Go struct
literal zeroes the unnamed fields. -/
def adoptedPos (cfg : StrategyConfig) (now : ℚ) (p : ExchangePosition) : MartingalePosition :=
  let amt := |p.positionAmt|
  let leverage := if p.leverage = 0 then 1 else p.leverage
  let margin := amt * p.entryPrice / leverage
  { symbol := p.symbol
    step := InferStepFromMargin cfg margin
    entryPrice := p.entryPrice
    quantity := amt
    totalMargin := margin
    nextStepPrice := 0
    stopLoss := 0
    takeProfit := 0
    lastAddTime := now }

/-- Body of the adopt/update loop of `BotEngine.Tick` (engine.go lines
100-156) for a single exchange position: update the tracked record's entry
price, re-inferred step, and quantity (the latter only when it drifts by
more than 0.0001), or adopt an untracked position. -/
def reconcileOne (cfg : StrategyConfig) (now : ℚ) (ledger : Ledger) (p : ExchangePosition) :
    Ledger :=
  let amt := |p.positionAmt|
  let leverage := if p.leverage = 0 then 1 else p.leverage
  let margin := amt * p.entryPrice / leverage
  match ledgerLookup ledger p.symbol with
  | some _ =>
      ledgerUpdateAt ledger p.symbol (fun localPos =>
        let lp1 :=
          if localPos.entryPrice ≠ p.entryPrice then
            { localPos with entryPrice := p.entryPrice }
          else localPos
        let inferredStep := InferStepFromMargin cfg margin
        let lp2 := if lp1.step ≠ inferredStep then { lp1 with step := inferredStep } else lp1
        if |lp2.quantity - amt| > 1/10000 then { lp2 with quantity := amt } else lp2)
  | none => ledgerUpsert ledger (adoptedPos cfg now p)

/-- One full reconciliation pass of `BotEngine.Tick` (engine.go lines
94-165), given a successful `GetAllOpenPositions` fetch: adopt/update every
exchange position, then prune ledger symbols outside the exchange's active
set. -/
def reconcile (cfg : StrategyConfig) (now : ℚ) (ledger : Ledger)
    (allPos : List ExchangePosition) : Ledger :=
  ledgerPrune (allPos.foldl (reconcileOne cfg now) ledger) (allPos.map (fun p => p.symbol))

/-! ### Persistence (`strategy.StateManager`, state_manager.go)

JSON marshalling/unmarshalling is abstracted as function parameters; the
file system is abstracted as the current file content. -/

/-- What `os.ReadFile` yields for the state file: absent, or present with
some content.  (Read errors other than non-existence are propagated by the
Go code like the corrupt case; they are not needed by the claims.) -/
inductive FileRead where
  | absent : FileRead
  | content (s : String) : FileRead
deriving DecidableEq, Repr

/-- Result of `StateManager.LoadState` (state_manager.go lines 26-43). -/
inductive LoadResult where
  | ok (trades : Ledger) : LoadResult
  | corruptState : LoadResult
deriving DecidableEq, Repr

/-- `StateManager.LoadState` (state_manager.go lines 26-43): a missing file
is a clean start (the map stays as initialised by `NewStateManager`, i.e.
empty); content that fails to unmarshal is the "corrupt state file"
error. -/
def LoadState (file : FileRead) (unmarshal : String → Option Ledger) : LoadResult :=
  match file with
  | FileRead.absent => LoadResult.ok []
  | FileRead.content s =>
      match unmarshal s with
      | some m => LoadResult.ok m
      | none => LoadResult.corruptState

/-- The slice of `bot.BotEngine` state fixed by `NewBotEngine` (engine.go
lines 32-67) that the load-time claims concern. -/
structure BotStartup where
  activeTrades : Ledger
  warned : Bool
  running : Bool
deriving DecidableEq, Repr

/-- `bot.NewBotEngine` (engine.go lines 32-67), restricted to its handling
of `LoadState` (lines 50-54): a load error is logged as a warning and the
engine is still constructed with `Running: true`; the trades map is left
empty. -/
def NewBotEngine (file : FileRead) (unmarshal : String → Option Ledger) : BotStartup :=
  match LoadState file unmarshal with
  | LoadResult.ok m => { activeTrades := m, warned := false, running := true }
  | LoadResult.corruptState => { activeTrades := [], warned := true, running := true }

/-- In-memory map plus current state-file content, the state touched by
`StateManager.SaveState` / `UpdatePosition`. -/
structure SMState where
  activeTrades : Ledger
  fileContent : String
deriving DecidableEq, Repr

/-- `StateManager.SaveState` (state_manager.go lines 46-56): marshal the
whole map and hand it to `os.WriteFile`, which (when it completes) replaces
the file content. -/
def SaveState (marshal : Ledger → String) (sm : SMState) : SMState :=
  { sm with fileContent := marshal sm.activeTrades }

/-- `StateManager.UpdatePosition` (state_manager.go lines 59-64): store the
record under `pos.Symbol`, then synchronously `SaveState`. -/
def UpdatePosition (marshal : Ledger → String) (sm : SMState) (pos : MartingalePosition) :
    SMState :=
  SaveState marshal { sm with activeTrades := ledgerUpsert sm.activeTrades pos }

/-- Crash semantics of `os.WriteFile(path, data, 0644)` as used by
`SaveState`: the file is opened with `O_TRUNC` and the bytes are written
sequentially in place, so if the process stops mid-call the on-disk content
is some initial segment of the new data — the previous content is already
gone after the truncation.  The list enumerates the reachable on-disk
contents, one per interruption point. -/
def writeFileCrashContents (newContent : String) : List String :=
  (List.range (newContent.length + 1)).map (fun k => String.mk (newContent.data.take k))

/-- An overwrite procedure is atomic when every interruption leaves either
the old or the new content on disk (what a write-to-temp-then-rename
implementation provides). -/
def IsAtomicOverwrite (crashContents : String → String → List String) : Prop :=
  ∀ oldContent newContent, ∀ s ∈ crashContents oldContent newContent,
    s = oldContent ∨ s = newContent

/-- Crash contents of `SaveState`'s write, as a function of the previous
and the new file content: `os.WriteFile` truncates in place, so the old
content does not influence what survives. -/
def saveStateCrashContents (_oldContent newContent : String) : List String :=
  writeFileCrashContents newContent

/-! ### Configuration loading (`config.LoadConfig`, config.go) -/

/-- Fields of `config.AppConfig` relevant to startup behaviour: the
strategy section plus the two testnet switches. -/
structure AppConfig where
  strategy : StrategyConfig
  systemUseTestnet : Bool
  binanceUseTestnet : Bool
deriving DecidableEq, Repr

/-- Outcome of reading and YAML-parsing `config.yaml` (the two fallible
steps of `config.LoadConfig`, config.go lines 169-182), abstracted. -/
inductive ConfigSource where
  | unreadable : ConfigSource
  | unparsable : ConfigSource
  | parsed (cfg : AppConfig) : ConfigSource
deriving DecidableEq, Repr

/-- Testnet override step of `config.LoadConfig` (config.go lines 184-190):
`system.use_testnet: true` in the YAML, or the `USE_TESTNET` environment
variable, force `Binance.UseTestnet`. -/
def applyTestnetOverride (cfg : AppConfig) (useTestnetEnv : Bool) : AppConfig :=
  if cfg.systemUseTestnet then { cfg with binanceUseTestnet := true }
  else if useTestnetEnv then { cfg with binanceUseTestnet := true }
  else cfg

/-- `config.LoadConfig` (config.go lines 127-197) after the .env scan: an
unreadable or unparsable `config.yaml` is an error; a parsed one is
returned (after the testnet override) with no further validation of any
field. -/
def LoadConfig (src : ConfigSource) (useTestnetEnv : Bool) : Except String AppConfig :=
  match src with
  | ConfigSource.unreadable => Except.error "failed to read config.yaml"
  | ConfigSource.unparsable => Except.error "failed to parse config.yaml"
  | ConfigSource.parsed cfg => Except.ok (applyTestnetOverride cfg useTestnetEnv)

/-- Startup outcome of `main` (main.go): `log.Fatalf` on a `LoadConfig`
error halts the process; otherwise the engine is built and run. -/
inductive StartupOutcome where
  | fatalConfig : StartupOutcome
  | engineRuns (cfg : AppConfig) : StartupOutcome
deriving DecidableEq, Repr

/-- The `LoadConfig`-dependent half of `main` (main.go lines 17-21). -/
def mainStartup (src : ConfigSource) (useTestnetEnv : Bool) : StartupOutcome :=
  match LoadConfig src useTestnetEnv with
  | Except.error _ => StartupOutcome.fatalConfig
  | Except.ok cfg => StartupOutcome.engineRuns cfg

/-! ### Entry decision (`BotEngine.Tick`, engine.go lines 203-283) -/

/-- `scanner.MarketOpportunity`, restricted to the fields the entry
decision reads. -/
structure Opportunity where
  symbol : String
  price : ℚ
  change24h : ℚ
  volume24h : ℚ
deriving DecidableEq, Repr

/-- Externally visible outcome of the entry-evaluation phase of one tick. -/
inductive EntryAction where
  | noOpportunities : EntryAction
  | alreadyInPosition (symbol : String) : EntryAction
  | fetchFailure : EntryAction
  | entry (symbol : String) (side : String) (quantity : ℚ) : EntryAction
deriving DecidableEq, Repr

/-- Whether the action places an order. -/
def EntryAction.isEntry : EntryAction → Bool
  | EntryAction.entry _ _ _ => true
  | _ => false

/-- Entry-evaluation phase of `BotEngine.Tick` (engine.go lines 203-283):
only `opps[0]` is examined; if its symbol is already tracked the function
returns immediately (no other opportunity is considered this tick);
otherwise, when the price and klines fetches succeed, a market SELL of
`stepSize[0] * leverage / price` is submitted (with a leverage floor
of 1). -/
def evaluateEntry (cfg : StrategyConfig) (ledger : Ledger) (opps : List Opportunity)
    (getPrice : String → Option ℚ) (getKlines : String → Option (List ℚ)) : EntryAction :=
  match opps with
  | [] => EntryAction.noOpportunities
  | best :: _ =>
      if (ledgerLookup ledger best.symbol).isSome then
        EntryAction.alreadyInPosition best.symbol
      else
        match getPrice best.symbol with
        | none => EntryAction.fetchFailure
        | some price =>
            match getKlines best.symbol with
            | none => EntryAction.fetchFailure
            | some _ =>
                let marginUSDT := GetStepSize cfg 0
                let leverage : ℚ :=
                  if ((cfg.martingale.leverage : Int) : ℚ) < 1 then 1
                  else ((cfg.martingale.leverage : Int) : ℚ)
                let totalNotional := marginUSDT * leverage
                let quantity := totalNotional / price
                EntryAction.entry best.symbol "SELL" quantity

/-! ### Concrete fixtures used to evaluate the development -/

/-- Example configuration: step sizes `[10, 10, 20]` (the spec's worked
`InferStepFromMargin` example), matching distance and wait lists, base
take-profit 1.5, RSI circuit breaker 90, max volatility multiplier 2,
leverage 10. -/
def cfgEx : StrategyConfig :=
  { martingale :=
      { leverage := 10
        steps := [10, 10, 20]
        stepDistances := [1, 2, 3]
        stepWaitTimes := [5, 10, 15]
        takeProfit := 3/2 }
    safety := { rsiCircuitBreaker := 90, maxVolMultiplier := 2 } }

/-- `cfgEx` with an empty step-size list. -/
def cfgNoSteps : StrategyConfig :=
  { cfgEx with martingale := { cfgEx.martingale with steps := [] } }

/-- A tracked position used by the fixtures. -/
def oldPosEx : MartingalePosition :=
  { symbol := "OLDUSDT", step := 1, entryPrice := 50, quantity := 2, totalMargin := 10
    nextStepPrice := 0, stopLoss := 0, takeProfit := 0, lastAddTime := 0 }

/-- Ledger holding only `oldPosEx`. -/
def ledgerEx : Ledger := [("OLDUSDT", oldPosEx)]

/-- Exchange snapshot entry for a symbol the ledger does not track: size
-21 (short), entry price 1, reported leverage 0 (floored to 1), so presumed
margin 21 and inferred step 2 under `cfgEx`. -/
def xyzEx : ExchangePosition :=
  { symbol := "XYZUSDT", positionAmt := -21, entryPrice := 1, leverage := 0 }

/-- A position already tracked for the entry-decision fixtures. -/
def posAEx : MartingalePosition :=
  { symbol := "AAAUSDT", step := 1, entryPrice := 4, quantity := 25, totalMargin := 10
    nextStepPrice := 0, stopLoss := 0, takeProfit := 0, lastAddTime := 0 }

/-- Ledger tracking only `AAAUSDT`. -/
def ledgerAEx : Ledger := [("AAAUSDT", posAEx)]

/-- Top-ranked scanner opportunity whose symbol is already tracked. -/
def oppAEx : Opportunity :=
  { symbol := "AAAUSDT", price := 4, change24h := 30, volume24h := 5000000 }

/-- Next-ranked scanner opportunity, not tracked. -/
def oppBEx : Opportunity :=
  { symbol := "BBBUSDT", price := 2, change24h := 20, volume24h := 4000000 }

/-- Position fixture for exercising `CalculateNextStep` at step 1. -/
def posWEx : MartingalePosition :=
  { symbol := "WWWUSDT", step := 1, entryPrice := 100, quantity := 1, totalMargin := 10
    nextStepPrice := 0, stopLoss := 0, takeProfit := 0, lastAddTime := 0 }

/-- Concrete stand-in for `json.MarshalIndent` in the persistence
fixtures. -/
def marshalCount (l : Ledger) : String := toString l.length

/-- State-manager fixture: empty map, previous file content `"OLD"`. -/
def smEx : SMState := { activeTrades := [], fileContent := "OLD" }

/-- Parsed configuration whose three per-step lists have pairwise different
lengths. -/
def cfgBadLengths : AppConfig :=
  { strategy :=
      { martingale :=
          { leverage := 10
            steps := [10, 10, 20]
            stepDistances := [1]
            stepWaitTimes := [5, 10]
            takeProfit := 3/2 }
        safety := { rsiCircuitBreaker := 90, maxVolMultiplier := 2 } }
    systemUseTestnet := false
    binanceUseTestnet := false }

/-! ### Ledger lemmas -/

/-- Looking up the upserted symbol yields the upserted record. -/
theorem ledgerLookup_upsert_self (l : Ledger) (pos : MartingalePosition) :
    ledgerLookup (ledgerUpsert l pos) pos.symbol = some pos := by
  induction l with
  | nil => simp [ledgerUpsert, ledgerLookup]
  | cons kv rest ih =>
      by_cases h : kv.1 = pos.symbol
      · simp [ledgerUpsert, h, ledgerLookup]
      · simp [ledgerUpsert, h, ledgerLookup, ih]

/-- Upserting one symbol leaves lookups of other symbols unchanged. -/
theorem ledgerLookup_upsert_ne (l : Ledger) (pos : MartingalePosition) (sym : String)
    (h : sym ≠ pos.symbol) :
    ledgerLookup (ledgerUpsert l pos) sym = ledgerLookup l sym := by
  induction l with
  | nil => simp [ledgerUpsert, ledgerLookup, Ne.symm h]
  | cons kv rest ih =>
      by_cases hk : kv.1 = pos.symbol
      · simp [ledgerUpsert, hk, ledgerLookup, Ne.symm h]
      · simp [ledgerUpsert, hk, ledgerLookup, ih]

/-- Updating one symbol's record leaves lookups of other symbols
unchanged. -/
theorem ledgerLookup_updateAt_ne (l : Ledger) (sym sym' : String)
    (f : MartingalePosition → MartingalePosition) (h : sym' ≠ sym) :
    ledgerLookup (ledgerUpdateAt l sym f) sym' = ledgerLookup l sym' := by
  induction l with
  | nil => simp [ledgerUpdateAt]
  | cons kv rest ih =>
      by_cases hk : kv.1 = sym
      · simp [ledgerUpdateAt, hk, ledgerLookup, Ne.symm h]
      · simp [ledgerUpdateAt, hk, ledgerLookup, ih]

/-- Pruning against an active set removes every symbol outside it. -/
theorem ledgerLookup_prune_not_mem (l : Ledger) (active : List String) (sym : String)
    (h : sym ∉ active) :
    ledgerLookup (ledgerPrune l active) sym = none := by
  induction l with
  | nil => rfl
  | cons kv rest ih =>
      by_cases hk : kv.1 ∈ active
      · have hne : kv.1 ≠ sym := fun he => h (he ▸ hk)
        simp [ledgerPrune, hk, ledgerLookup, hne, ih]
      · simp [ledgerPrune, hk, ih]

/-- Pruning against an active set does not change lookups of symbols inside
it. -/
theorem ledgerLookup_prune_mem (l : Ledger) (active : List String) (sym : String)
    (h : sym ∈ active) :
    ledgerLookup (ledgerPrune l active) sym = ledgerLookup l sym := by
  induction l with
  | nil => rfl
  | cons kv rest ih =>
      by_cases hk : kv.1 ∈ active
      · by_cases he : kv.1 = sym
        · simp [ledgerPrune, hk, ledgerLookup, he, h]
        · simp [ledgerPrune, hk, ledgerLookup, he, ih]
      · have hne : kv.1 ≠ sym := fun he => hk (he ▸ h)
        simp [ledgerPrune, hk, ledgerLookup, hne, ih]

/-! ### Reconciliation lemmas -/

/-- Reconciling one exchange position only touches the ledger entry for its
own symbol. -/
theorem reconcileOne_lookup_ne (cfg : StrategyConfig) (now : ℚ) (l : Ledger)
    (p : ExchangePosition) (sym : String) (h : sym ≠ p.symbol) :
    ledgerLookup (reconcileOne cfg now l p) sym = ledgerLookup l sym := by
  cases hl : ledgerLookup l p.symbol with
  | some q =>
      simp only [reconcileOne, hl]
      exact ledgerLookup_updateAt_ne _ _ _ _ h
  | none =>
      simp only [reconcileOne, hl]
      exact ledgerLookup_upsert_ne _ _ _ h

/-- Folding the adopt/update loop over exchange positions that do not carry
a given symbol leaves that symbol's ledger entry unchanged. -/
theorem foldl_reconcile_lookup_not_mem (cfg : StrategyConfig) (now : ℚ)
    (ps : List ExchangePosition) (l : Ledger) (sym : String)
    (h : sym ∉ ps.map (fun p => p.symbol)) :
    ledgerLookup (ps.foldl (reconcileOne cfg now) l) sym = ledgerLookup l sym := by
  induction ps generalizing l with
  | nil => rfl
  | cons q rest ih =>
      simp only [List.map_cons, List.mem_cons, not_or] at h
      rw [List.foldl_cons, ih _ h.2]
      exact reconcileOne_lookup_ne _ _ _ _ _ h.1

/-- After the adopt/update loop, an exchange position whose symbol the
ledger did not track is present as its adopted record. -/
theorem foldl_reconcile_adopts (cfg : StrategyConfig) (now : ℚ)
    (ps : List ExchangePosition) (l : Ledger) (p : ExchangePosition)
    (hmem : p ∈ ps) (hnodup : (ps.map (fun p => p.symbol)).Nodup)
    (hnone : ledgerLookup l p.symbol = none) :
    ledgerLookup (ps.foldl (reconcileOne cfg now) l) p.symbol =
      some (adoptedPos cfg now p) := by
  induction ps generalizing l with
  | nil => cases hmem
  | cons q rest ih =>
      simp only [List.map_cons, List.nodup_cons] at hnodup
      rw [List.foldl_cons]
      rcases List.mem_cons.mp hmem with rfl | hmem'
      · have h1 : reconcileOne cfg now l p = ledgerUpsert l (adoptedPos cfg now p) := by
          simp [reconcileOne, hnone]
        rw [h1, foldl_reconcile_lookup_not_mem cfg now rest _ _ hnodup.1]
        exact ledgerLookup_upsert_self _ _
      · have hqp : p.symbol ≠ q.symbol := by
          intro he
          exact hnodup.1 (he ▸ List.mem_map_of_mem _ hmem')
        have hstill : ledgerLookup (reconcileOne cfg now l q) p.symbol = none := by
          rw [reconcileOne_lookup_ne _ _ _ _ _ hqp]; exact hnone
        exact ih _ hmem' hnodup.2 hstill

/-! ### Step-inference lemmas -/

/-- No rungs, no cumulative margin. -/
theorem cumulativeStepMargin_zero (sizes : List Int) : cumulativeStepMargin sizes 0 = 0 := by
  simp [cumulativeStepMargin]

/-- Peeling one rung off the cumulative margin. -/
theorem cumulativeStepMargin_cons (s : Int) (rest : List Int) (n : Nat) :
    cumulativeStepMargin (s :: rest) (n + 1) = (s : ℚ) + cumulativeStepMargin rest n := by
  simp [cumulativeStepMargin, List.take_succ_cons]

/-- Loop characterisation of `inferStepAux`: starting from accumulated
margin `c` and loop counter `i`, the result is either the fall-through
value `total` (when no rung's padded cumulative margin covers the observed
margin) or `i + j + 1` for the first rung offset `j` whose padded
cumulative margin does. -/
theorem inferStepAux_char (margin : ℚ) (sizes : List Int) (c : ℚ) (i total : Nat) :
    (inferStepAux margin sizes c i total = total ∧
        ∀ j, j < sizes.length →
          ¬ margin ≤ (c + cumulativeStepMargin sizes (j + 1)) / (19/20)) ∨
    (∃ j, j < sizes.length ∧
        margin ≤ (c + cumulativeStepMargin sizes (j + 1)) / (19/20) ∧
        (∀ k, k < j → ¬ margin ≤ (c + cumulativeStepMargin sizes (k + 1)) / (19/20)) ∧
        inferStepAux margin sizes c i total = i + j + 1) := by
  induction sizes generalizing c i with
  | nil =>
      left
      exact ⟨rfl, fun j hj => absurd hj (by simp)⟩
  | cons s rest ih =>
      by_cases h : margin ≤ (c + (s : ℚ)) / (19/20)
      · right
        refine ⟨0, by simp, ?_, fun k hk => absurd hk (by omega), ?_⟩
        · simpa [cumulativeStepMargin_cons, cumulativeStepMargin_zero] using h
        · simp [inferStepAux, h]
      · have hstep : inferStepAux margin (s :: rest) c i total =
            inferStepAux margin rest (c + (s : ℚ)) (i + 1) total := by
          simp [inferStepAux, h]
        rcases ih (c + (s : ℚ)) (i + 1) with ⟨heq, hnone⟩ | ⟨j, hj, hPj, hmin, heq⟩
        · left
          refine ⟨by rw [hstep]; exact heq, ?_⟩
          intro j hj
          cases j with
          | zero =>
              simpa [cumulativeStepMargin_cons, cumulativeStepMargin_zero] using h
          | succ j' =>
              have := hnone j' (by simpa using hj)
              simpa [cumulativeStepMargin_cons, add_assoc] using this
        · right
          refine ⟨j + 1, by simpa using hj, ?_, ?_, ?_⟩
          · simpa [cumulativeStepMargin_cons, add_assoc] using hPj
          · intro k hk
            cases k with
            | zero =>
                simpa [cumulativeStepMargin_cons, cumulativeStepMargin_zero] using h
            | succ k' =>
                have := hmin k' (by omega)
                simpa [cumulativeStepMargin_cons, add_assoc] using this
          · rw [hstep, heq]; omega

/-- `InferStepFromMargin` is either the configured maximum rung count (when
no rung's padded cumulative margin covers the observed margin) or the
1-based index of the first rung whose padded cumulative margin does. -/
theorem inferStep_char (cfg : StrategyConfig) (margin : ℚ) :
    (InferStepFromMargin cfg margin = cfg.martingale.steps.length ∧
        ∀ j, j < cfg.martingale.steps.length →
          ¬ margin ≤ cumulativeStepMargin cfg.martingale.steps (j + 1) / (19/20)) ∨
    (∃ j, j < cfg.martingale.steps.length ∧
        margin ≤ cumulativeStepMargin cfg.martingale.steps (j + 1) / (19/20) ∧
        (∀ k, k < j →
          ¬ margin ≤ cumulativeStepMargin cfg.martingale.steps (k + 1) / (19/20)) ∧
        InferStepFromMargin cfg margin = j + 1) := by
  have h := inferStepAux_char margin cfg.martingale.steps 0 0 cfg.martingale.steps.length
  simpa [InferStepFromMargin, zero_add] using h

/-- The inferred step never exceeds the configured rung count. -/
theorem inferStep_le_length (cfg : StrategyConfig) (margin : ℚ) :
    InferStepFromMargin cfg margin ≤ cfg.martingale.steps.length := by
  rcases inferStep_char cfg margin with ⟨heq, _⟩ | ⟨j, hj, _, _, heq⟩
  · exact heq.le
  · omega

/-! ### Claim theorems -/

/-- C1: after one reconciliation pass with a successful exchange fetch,
every exchange symbol the ledger did not track is present as a new position
whose step is `InferStepFromMargin` of the presumed margin
`|size| * entryPrice / leverage` (leverage floored to 1 when 0), and every
ledger symbol absent from the exchange's open-position list is removed. -/
theorem reconcile_adopts_and_prunes (cfg : StrategyConfig) (now : ℚ) (ledger : Ledger)
    (allPos : List ExchangePosition)
    (hnodup : (allPos.map (fun p => p.symbol)).Nodup) :
    (∀ p ∈ allPos, ledgerLookup ledger p.symbol = none →
        ledgerLookup (reconcile cfg now ledger allPos) p.symbol =
          some (adoptedPos cfg now p) ∧
        (adoptedPos cfg now p).step =
          InferStepFromMargin cfg
            (|p.positionAmt| * p.entryPrice / (if p.leverage = 0 then 1 else p.leverage))) ∧
    (∀ sym, (ledgerLookup ledger sym).isSome = true →
        sym ∉ allPos.map (fun p => p.symbol) →
        ledgerLookup (reconcile cfg now ledger allPos) sym = none) := by
  constructor
  · intro p hp hnone
    refine ⟨?_, rfl⟩
    have hmem : p.symbol ∈ allPos.map (fun p => p.symbol) := List.mem_map_of_mem _ hp
    unfold reconcile
    rw [ledgerLookup_prune_mem _ _ _ hmem]
    exact foldl_reconcile_adopts cfg now allPos ledger p hp hnodup hnone
  · intro sym _ hnot
    unfold reconcile
    exact ledgerLookup_prune_not_mem _ _ _ hnot

/-- C1 witness: a snapshot containing the untracked short `XYZUSDT`
(size -21, entry 1, leverage 0) is adopted at the inferred step, and the
tracked `OLDUSDT`, absent from the snapshot, is removed. -/
theorem reconcile_adopts_and_prunes_witness :
    ledgerLookup (reconcile cfgEx 0 ledgerEx [xyzEx]) "XYZUSDT" =
      some (adoptedPos cfgEx 0 xyzEx) ∧
    (adoptedPos cfgEx 0 xyzEx).step = 2 ∧
    ledgerLookup (reconcile cfgEx 0 ledgerEx [xyzEx]) "OLDUSDT" = none := by
  have h := reconcile_adopts_and_prunes cfgEx 0 ledgerEx [xyzEx] (by simp)
  refine ⟨(h.1 xyzEx (by simp) (by decide)).1,
    by norm_num [adoptedPos, xyzEx, InferStepFromMargin, inferStepAux, cfgEx],
    h.2 "OLDUSDT" (by decide) (by decide)⟩

/-- C4: `CalculateNextStep` checks its conditions in order — at or beyond
the configured step count it refuses with "max steps reached"; inside the
cooldown window it refuses with the remaining wait; otherwise it accepts
exactly when the current price has moved adversely by
`stepDistance[step] * volatilityMultiplier` percent above the entry, where
the multiplier is `min(1 + volatility*0.5, maxVolMultiplier)` for positive
volatility and 1 otherwise.  The function is pure, so a refusal mutates
nothing. -/
theorem calculateNextStep_spec (cfg : StrategyConfig) (pos : MartingalePosition)
    (currentPrice volatility now : ℚ)
    (hw : pos.step < cfg.martingale.stepWaitTimes.length)
    (hd : pos.step < cfg.martingale.stepDistances.length) :
    (cfg.martingale.steps.length ≤ pos.step →
      CalculateNextStep cfg pos currentPrice volatility now =
        (false, StepReason.maxStepsReached)) ∧
    (pos.step < cfg.martingale.steps.length →
      now - pos.lastAddTime < ((cfg.martingale.stepWaitTimes.getD pos.step 0 : Int) : ℚ) →
      CalculateNextStep cfg pos currentPrice volatility now =
        (false, StepReason.cooldown
          (((cfg.martingale.stepWaitTimes.getD pos.step 0 : Int) : ℚ) -
            (now - pos.lastAddTime)))) ∧
    (pos.step < cfg.martingale.steps.length →
      ((cfg.martingale.stepWaitTimes.getD pos.step 0 : Int) : ℚ) ≤ now - pos.lastAddTime →
      ((CalculateNextStep cfg pos currentPrice volatility now).1 = true ↔
        pos.entryPrice *
            (1 + (cfg.martingale.stepDistances.getD pos.step 0 *
              (if volatility > 0 then
                min (1 + volatility * (1/2)) cfg.safety.maxVolMultiplier
              else 1)) / 100) ≤ currentPrice)) := by
  refine ⟨?_, ?_, ?_⟩
  · intro hle
    simp only [CalculateNextStep, ge_iff_le]
    rw [if_pos hle]
  · intro hlt hcd
    have h1 : ¬ cfg.martingale.steps.length ≤ pos.step := not_le.mpr hlt
    simp only [CalculateNextStep, ge_iff_le]
    rw [if_neg h1, if_pos hcd]
  · intro hlt hcd
    have h1 : ¬ cfg.martingale.steps.length ≤ pos.step := not_le.mpr hlt
    have h2 : ¬ now - pos.lastAddTime <
        ((cfg.martingale.stepWaitTimes.getD pos.step 0 : Int) : ℚ) := not_lt.mpr hcd
    simp only [CalculateNextStep, ge_iff_le]
    rw [if_neg h1, if_neg h2]
    by_cases h3 :
        pos.entryPrice *
          (1 + (cfg.martingale.stepDistances.getD pos.step 0 *
            (if volatility > 0 then
              min (1 + volatility * (1/2)) cfg.safety.maxVolMultiplier
            else 1)) / 100) ≤ currentPrice
    · rw [if_pos h3]
      exact iff_of_true rfl h3
    · rw [if_neg h3]
      exact iff_of_false (by simp) h3

/-- C4 witness: with `cfgEx`, a step-1 position entered at 100 whose
cooldown has elapsed accepts at current price 103 (required move 2%), and
a fresh position still inside the wait window refuses with the remaining
cooldown. -/
theorem calculateNextStep_spec_witness :
    (CalculateNextStep cfgEx posWEx 103 0 100).1 = true ∧
    CalculateNextStep cfgEx posWEx 103 0 1 = (false, StepReason.cooldown 9) := by
  have h := calculateNextStep_spec cfgEx posWEx 103 0 100 (by decide) (by decide)
  have h2 := calculateNextStep_spec cfgEx posWEx 103 0 1 (by decide) (by decide)
  refine ⟨(h.2.2 (by decide) (by norm_num [cfgEx, posWEx])).mpr
    (by norm_num [cfgEx, posWEx]), ?_⟩
  rw [h2.2.1 (by decide) (by norm_num [cfgEx, posWEx])]
  norm_num [cfgEx, posWEx]

/-- C5: the safety check vetoes exactly when the step is at least 4 and the
RSI strictly exceeds the configured circuit-breaker limit; every other
combination passes. -/
theorem checkSafetyConditions_spec (cfg : StrategyConfig) (rsi : ℚ) (step : Nat) :
    (CheckSafetyConditions cfg rsi step).1 = false ↔
      4 ≤ step ∧ cfg.safety.rsiCircuitBreaker < rsi := by
  by_cases h4 : step ≥ 4
  · by_cases hr : rsi > cfg.safety.rsiCircuitBreaker
    · simp [CheckSafetyConditions, h4, hr]
    · simp [CheckSafetyConditions, h4, hr]
  · simp [CheckSafetyConditions, h4]

/-- C6: `InferStepFromMargin` returns the first 1-based rung index whose
cumulative margin divided by the 0.95 tolerance covers the observed margin,
falling back to the maximum configured rung; on step sizes `[10, 10, 20]`,
margins 9, 10.5, 21 and 50 give steps 1, 1, 2 and 3. -/
theorem inferStepFromMargin_spec (cfg : StrategyConfig) (margin : ℚ) :
    ((InferStepFromMargin cfg margin = cfg.martingale.steps.length ∧
        ∀ j, j < cfg.martingale.steps.length →
          ¬ margin ≤ cumulativeStepMargin cfg.martingale.steps (j + 1) / (19/20)) ∨
      (∃ j, j < cfg.martingale.steps.length ∧
        margin ≤ cumulativeStepMargin cfg.martingale.steps (j + 1) / (19/20) ∧
        (∀ k, k < j →
          ¬ margin ≤ cumulativeStepMargin cfg.martingale.steps (k + 1) / (19/20)) ∧
        InferStepFromMargin cfg margin = j + 1)) ∧
    InferStepFromMargin cfgEx 9 = 1 ∧
    InferStepFromMargin cfgEx (21/2) = 1 ∧
    InferStepFromMargin cfgEx 21 = 2 ∧
    InferStepFromMargin cfgEx 50 = 3 := by
  exact ⟨inferStep_char cfg margin,
    by norm_num [InferStepFromMargin, inferStepAux, cfgEx],
    by norm_num [InferStepFromMargin, inferStepAux, cfgEx],
    by norm_num [InferStepFromMargin, inferStepAux, cfgEx],
    by norm_num [InferStepFromMargin, inferStepAux, cfgEx]⟩

/-- C2 counterexample: with state-file content that fails to unmarshal,
`LoadState` reports corrupt state, yet the engine constructed by
`NewBotEngine` still has `running = true` and an empty ledger — the process
does not refuse to run. -/
theorem corruptState_not_fatal_counterexample :
    LoadState (FileRead.content "not json") (fun _ => none) = LoadResult.corruptState ∧
    (NewBotEngine (FileRead.content "not json") (fun _ => none)).running = true ∧
    (NewBotEngine (FileRead.content "not json") (fun _ => none)).activeTrades = [] :=
  ⟨rfl, rfl, rfl⟩

/-- C2 amended: an absent state file loads as an empty map; malformed
content is a corrupt-state error; but at startup `NewBotEngine` only logs a
warning and starts running with an empty ledger — the error is not
fatal. -/
theorem loadState_spec (unmarshal : String → Option Ledger) (s : String) :
    LoadState FileRead.absent unmarshal = LoadResult.ok [] ∧
    (unmarshal s = none →
      LoadState (FileRead.content s) unmarshal = LoadResult.corruptState ∧
      NewBotEngine (FileRead.content s) unmarshal =
        { activeTrades := [], warned := true, running := true }) ∧
    (∀ m, unmarshal s = some m →
      NewBotEngine (FileRead.content s) unmarshal =
        { activeTrades := m, warned := false, running := true }) := by
  refine ⟨rfl, ?_, ?_⟩
  · intro hu
    constructor
    · simp [LoadState, hu]
    · simp [NewBotEngine, LoadState, hu]
  · intro m hu
    simp [NewBotEngine, LoadState, hu]

/-- C2 witness: `loadState_spec` evaluated at an unmarshal function that
rejects everything and the content `"garbage"`. -/
theorem loadState_spec_witness :
    LoadState (FileRead.content "garbage") (fun _ => none) = LoadResult.corruptState ∧
    (NewBotEngine (FileRead.content "garbage") (fun _ => none)).running = true := by
  have h := loadState_spec (fun _ => none) "garbage"
  exact ⟨(h.2.1 rfl).1, by rw [(h.2.1 rfl).2]⟩

/-- C3: `UpdatePosition` replaces the record keyed by the position's symbol
and synchronously persists the whole map, but the persistence write is not
atomic: `os.WriteFile` truncates the file in place, so an interruption can
leave content (here the empty file) that is neither the previous nor the
new document — contradicting both the claim and `SaveState`'s own comment
\"writes to JSON file atomically\". -/
theorem updatePosition_writeThrough_but_not_atomic :
    ledgerLookup (UpdatePosition marshalCount smEx oldPosEx).activeTrades "OLDUSDT" =
      some oldPosEx ∧
    (UpdatePosition marshalCount smEx oldPosEx).fileContent =
      marshalCount (ledgerUpsert smEx.activeTrades oldPosEx) ∧
    "" ∈ saveStateCrashContents "OLD" "AB" ∧
    ¬ IsAtomicOverwrite saveStateCrashContents := by
  refine ⟨rfl, rfl, by decide, ?_⟩
  intro h
  have := h "OLD" "AB" "" (by decide)
  rcases this with h1 | h1 <;> simp at h1

/-- C7 counterexample: with the top-ranked opportunity `AAAUSDT` already
tracked and the next-ranked `BBBUSDT` untracked and fetchable, the tick's
entry evaluation returns `alreadyInPosition` and attempts no entry at all —
the next-ranked opportunity is not considered. -/
theorem entryTopOnly_counterexample :
    evaluateEntry cfgEx ledgerAEx [oppAEx, oppBEx] (fun _ => some 2) (fun _ => some []) =
      EntryAction.alreadyInPosition "AAAUSDT" ∧
    (evaluateEntry cfgEx ledgerAEx [oppAEx, oppBEx]
        (fun _ => some 2) (fun _ => some [])).isEntry = false ∧
    ledgerLookup ledgerAEx "BBBUSDT" = none :=
  ⟨rfl, rfl, rfl⟩

/-- C7 amended: only `opps[0]` is ever evaluated in a tick — if its symbol
is already tracked, the function returns with no entry attempt (regardless
of the remaining opportunities); if it is untracked and the price and
klines fetches succeed, a market SELL of
`stepSize[0] * leverage / price` (leverage floored to 1) is attempted for
it. -/
theorem evaluateEntry_spec (cfg : StrategyConfig) (ledger : Ledger) (best : Opportunity)
    (rest : List Opportunity) (getPrice : String → Option ℚ)
    (getKlines : String → Option (List ℚ)) :
    ((ledgerLookup ledger best.symbol).isSome = true →
      evaluateEntry cfg ledger (best :: rest) getPrice getKlines =
        EntryAction.alreadyInPosition best.symbol) ∧
    (∀ price klines, ledgerLookup ledger best.symbol = none →
      getPrice best.symbol = some price →
      getKlines best.symbol = some klines →
      evaluateEntry cfg ledger (best :: rest) getPrice getKlines =
        EntryAction.entry best.symbol "SELL"
          (GetStepSize cfg 0 *
            (if ((cfg.martingale.leverage : Int) : ℚ) < 1 then 1
             else ((cfg.martingale.leverage : Int) : ℚ)) / price)) := by
  constructor
  · intro hsome
    simp [evaluateEntry, hsome]
  · intro price klines hnone hp hk
    simp [evaluateEntry, hnone, hp, hk]

/-- C7 witness: `evaluateEntry_spec` evaluated with an empty ledger and the
single opportunity `BBBUSDT` at price 2 under `cfgEx` (step size 10,
leverage 10): a market SELL of 50 units. -/
theorem evaluateEntry_spec_witness :
    evaluateEntry cfgEx [] [oppBEx] (fun _ => some 2) (fun _ => some []) =
      EntryAction.entry "BBBUSDT" "SELL" 50 := by
  have h := (evaluateEntry_spec cfgEx [] oppBEx [] (fun _ => some 2) (fun _ => some [])).2
    2 [] rfl rfl rfl
  rw [h]
  norm_num [GetStepSize, cfgEx, oppBEx]

/-- C8: the dynamic take-profit target percent is the base take-profit
scaled by 1.0 up to step 3, 1.2 for steps 4-7 and 1.5 from step 8, the
returned price is `entry * (1 - targetPercent/100)`, and with base 1.5 the
percents at steps 1, 5, 9 are 1.5, 1.8, 2.25, giving price 97.75 for
entry 100 at step 9. -/
theorem calculateDynamicTarget_spec (cfg : StrategyConfig) (avgEntry : ℚ) (step : Nat) :
    CalculateDynamicTarget avgEntry step cfg =
      avgEntry * (1 - CalculateDynamicTargetPercent step cfg / 100) ∧
    (step ≤ 3 → CalculateDynamicTargetPercent step cfg = cfg.martingale.takeProfit * 1) ∧
    (4 ≤ step → step ≤ 7 →
      CalculateDynamicTargetPercent step cfg = cfg.martingale.takeProfit * (6/5)) ∧
    (8 ≤ step → CalculateDynamicTargetPercent step cfg = cfg.martingale.takeProfit * (3/2)) ∧
    CalculateDynamicTargetPercent 1 cfgEx = 3/2 ∧
    CalculateDynamicTargetPercent 5 cfgEx = 9/5 ∧
    CalculateDynamicTargetPercent 9 cfgEx = 9/4 ∧
    CalculateDynamicTarget 100 9 cfgEx = 391/4 := by
  refine ⟨rfl, ?_, ?_, ?_, ?_, ?_, ?_, ?_⟩
  · intro h3
    have h8 : ¬ step ≥ 8 := by omega
    have h4 : ¬ step ≥ 4 := by omega
    simp [CalculateDynamicTargetPercent, h8, h4]
  · intro h4 h7
    have h8 : ¬ step ≥ 8 := by omega
    simp [CalculateDynamicTargetPercent, h8, h4]
  · intro h8
    simp [CalculateDynamicTargetPercent, h8]
  · norm_num [CalculateDynamicTargetPercent, cfgEx]
  · norm_num [CalculateDynamicTargetPercent, cfgEx]
  · norm_num [CalculateDynamicTargetPercent, cfgEx]
  · norm_num [CalculateDynamicTarget, CalculateDynamicTargetPercent, cfgEx]

/-- C8 witness: `calculateDynamicTarget_spec` applied at step 9 with base
take-profit 1.5 and entry 100. -/
theorem calculateDynamicTarget_spec_witness :
    CalculateDynamicTargetPercent 9 cfgEx = cfgEx.martingale.takeProfit * (3/2) :=
  (calculateDynamicTarget_spec cfgEx 100 9).2.2.2.1 (by omega)

/-- C9 counterexample: a parsed configuration whose step-size,
step-distance and step-wait lists have pairwise different lengths is
accepted by `LoadConfig` and the engine runs — no validation error is
raised at startup. -/
theorem loadConfig_mismatch_counterexample :
    cfgBadLengths.strategy.martingale.steps.length ≠
      cfgBadLengths.strategy.martingale.stepDistances.length ∧
    cfgBadLengths.strategy.martingale.stepDistances.length ≠
      cfgBadLengths.strategy.martingale.stepWaitTimes.length ∧
    mainStartup (ConfigSource.parsed cfgBadLengths) false =
      StartupOutcome.engineRuns cfgBadLengths :=
  ⟨by decide, by decide, rfl⟩

/-- C9 amended: `LoadConfig` validates nothing about the step lists — every
parsed configuration is returned `ok` (after the testnet override) and the
process proceeds to run the engine; only an unreadable or unparsable
`config.yaml` is a fatal startup error. -/
theorem loadConfig_no_validation (cfg : AppConfig) (env : Bool) :
    LoadConfig (ConfigSource.parsed cfg) env =
      Except.ok (applyTestnetOverride cfg env) ∧
    mainStartup (ConfigSource.parsed cfg) env =
      StartupOutcome.engineRuns (applyTestnetOverride cfg env) ∧
    LoadConfig ConfigSource.unreadable env = Except.error "failed to read config.yaml" ∧
    mainStartup ConfigSource.unreadable env = StartupOutcome.fatalConfig ∧
    mainStartup ConfigSource.unparsable env = StartupOutcome.fatalConfig :=
  ⟨rfl, rfl, rfl, rfl, rfl⟩

/-- C10: on a non-empty configured step list of length N, the inferred step
always lies in 1..N and is monotone in the observed margin; on an empty
list it is 0; hence adopted positions never exceed the configured maximum
rung count. -/
theorem inferStepFromMargin_bounds_monotone (cfg : StrategyConfig) (m m1 m2 : ℚ) :
    (cfg.martingale.steps ≠ [] →
      1 ≤ InferStepFromMargin cfg m ∧
      InferStepFromMargin cfg m ≤ cfg.martingale.steps.length) ∧
    (m1 ≤ m2 → InferStepFromMargin cfg m1 ≤ InferStepFromMargin cfg m2) ∧
    (cfg.martingale.steps = [] → InferStepFromMargin cfg m = 0) ∧
    (cfg.martingale.steps ≠ [] → ∀ (now : ℚ) (p : ExchangePosition),
      (adoptedPos cfg now p).step ≤ cfg.martingale.steps.length) := by
  refine ⟨?_, ?_, ?_, ?_⟩
  · intro hne
    refine ⟨?_, inferStep_le_length cfg m⟩
    have hlen : 0 < cfg.martingale.steps.length := List.length_pos.mpr hne
    rcases inferStep_char cfg m with ⟨heq, _⟩ | ⟨j, _, _, _, heq⟩ <;> omega
  · intro hle
    rcases inferStep_char cfg m2 with ⟨heq2, _⟩ | ⟨j, hj, hPj, _, heq2⟩
    · rw [heq2]
      exact inferStep_le_length cfg m1
    · have hPj1 : m1 ≤ cumulativeStepMargin cfg.martingale.steps (j + 1) / (19/20) :=
        le_trans hle hPj
      rcases inferStep_char cfg m1 with ⟨_, hnone1⟩ | ⟨k, _, _, hmin1, heq1⟩
      · exact absurd hPj1 (hnone1 j hj)
      · have hkj : k ≤ j := by
          by_contra hgt
          exact (hmin1 j (by omega)) hPj1
        omega
  · intro hempty
    simp [InferStepFromMargin, hempty, inferStepAux]
  · intro hne now p
    exact inferStep_le_length cfg _

/-- C10 witness: `inferStepFromMargin_bounds_monotone` evaluated under
`cfgEx` (margins 50, 9 ≤ 21) and under the empty-list configuration at
margin 5. -/
theorem inferStepFromMargin_bounds_monotone_witness :
    (1 ≤ InferStepFromMargin cfgEx 50 ∧
      InferStepFromMargin cfgEx 50 ≤ cfgEx.martingale.steps.length) ∧
    InferStepFromMargin cfgEx 9 ≤ InferStepFromMargin cfgEx 21 ∧
    InferStepFromMargin cfgNoSteps 5 = 0 ∧
    (adoptedPos cfgEx 0 xyzEx).step ≤ cfgEx.martingale.steps.length := by
  have h := inferStepFromMargin_bounds_monotone cfgEx 50 9 21
  have h0 := inferStepFromMargin_bounds_monotone cfgNoSteps 5 5 5
  exact ⟨h.1 (by decide), h.2.1 (by norm_num), h0.2.2.1 rfl,
    h.2.2.2 (by decide) 0 xyzEx⟩

end LegendaryScalper
